import Mathlib

/-!
Verification development for `src/features/modals/NodeModal/index.tsx`.

The file embeds the three pure helpers of the component
(`normalizeNodeData`, `jsonPathToString`, `updateJsonAtPath`) and the
component's handlers (`handleSave`'s node update, `handleCancel`,
`handleEditChange`, the `editableRows` guard and the edit-mode
initialization effect) as executable Lean definitions, together with a
model of the JavaScript JSON runtime they rely on (`JSON.parse`,
`JSON.stringify(-, null, 2)`, property access and property assignment on
parsed JSON data).

Modelling conventions:
- JSON numbers are modelled as integers; fractional and exponent number
  forms are outside the model (floating point is not embedded).
- `undefined` is modelled as `Option.none` where it can arise (property
  access results); JSON `null` is the explicit `JValue.null`.
- In-place mutation of the object reached by the path walk is modelled as
  functional replacement of the subterm at that path (`setConstAt`);
  this is faithful because `JSON.parse` always produces a tree (no
  aliasing between distinct paths).
- A thrown JavaScript exception is modelled as `Except.error ()`.
-/

mutual
/-- A parsed JSON document value, as produced by `JSON.parse`.
Object fields are kept in insertion order, as JavaScript does for
string keys of plain objects. -/
inductive JValue where
  | null
  | bool (b : Bool)
  | num (n : Int)
  | str (s : String)
  | arr (xs : JList)
  | obj (fs : JFields)
deriving DecidableEq

/-- The element list of a JSON array. -/
inductive JList where
  | nil
  | cons (hd : JValue) (tl : JList)
deriving DecidableEq

/-- The field list of a JSON object, in insertion order. -/
inductive JFields where
  | nil
  | cons (k : String) (v : JValue) (tl : JFields)
deriving DecidableEq
end

/-- Object field lookup: value of the first field carrying the key,
mirroring JavaScript property read on a plain object. -/
def JFields.lookup : JFields → String → Option JValue
  | .nil, _ => none
  | .cons k0 v0 rest, k => if k0 == k then some v0 else rest.lookup k

/-- Object field write: JavaScript property write keeps the position of
an existing key and overwrites its value, and appends a fresh key at the
end of the insertion order. -/
def JFields.set : JFields → String → JValue → JFields
  | .nil, k, v => .cons k v .nil
  | .cons k0 v0 rest, k, v =>
    if k0 == k then .cons k0 v rest else .cons k0 v0 (rest.set k v)

/-- Number of elements of a JSON array. -/
def JList.length : JList → Nat
  | .nil => 0
  | .cons _ tl => tl.length + 1

/-- Element read at an index (`none` when out of range). -/
def JList.get? : JList → Nat → Option JValue
  | .nil, _ => none
  | .cons hd _, 0 => some hd
  | .cons _ tl, n + 1 => tl.get? n

/-- Element write at an index (out-of-range indices leave the list). -/
def JList.set : JList → Nat → JValue → JList
  | .nil, _, _ => .nil
  | .cons _ tl, 0, v => .cons v tl
  | .cons hd tl, n + 1, v => .cons hd (tl.set n v)

/-- Concatenation of array element lists. -/
def JList.append : JList → JList → JList
  | .nil, ys => ys
  | .cons hd tl, ys => .cons hd (tl.append ys)

/-- Array element list of `n` copies of `null` (JavaScript array holes
serialize as `null`, so extension holes are modelled as `null`). -/
def JList.nulls : Nat → JList
  | 0 => .nil
  | n + 1 => .cons .null (JList.nulls n)

/-- Array element list from a Lean list. -/
def JList.ofList : List JValue → JList
  | [] => .nil
  | v :: vs => .cons v (JList.ofList vs)

/-- Object fields built by JavaScript-order assignment of raw key/value
pairs onto an initially empty object (later duplicate keys overwrite the
value at the first position, as `JSON.parse` does). -/
def JFields.ofPairs (ps : List (String × JValue)) : JFields :=
  ps.foldl (fun acc kv => acc.set kv.1 kv.2) .nil

/-- Association-list lookup for plain string records such as the
component's edited-values mapping. -/
def lookupRec {α : Type} : List (String × α) → String → Option α
  | [], _ => none
  | (k0, v0) :: rest, k => if k0 == k then some v0 else lookupRec rest k

/-- Association-list write for plain string records, with JavaScript
object-key semantics (overwrite in place, append when fresh). -/
def setRec {α : Type} : List (String × α) → String → α → List (String × α)
  | [], k, v => [(k, v)]
  | (k0, v0) :: rest, k, v =>
    if k0 == k then (k0, v) :: rest else (k0, v0) :: setRec rest k v

/-- Left brace character, kept out of literals. -/
def lbrace : Char := Char.ofNat 123

/-- Right brace character, kept out of literals. -/
def rbrace : Char := Char.ofNat 125

/-- String consisting of `n` spaces, the indentation JSON.stringify uses. -/
def indentStr (n : Nat) : String := String.mk (List.replicate n ' ')

/-- Hexadecimal digit character (lower case), for control-char escapes. -/
def hexDigitChar (n : Nat) : Char :=
  if n < 10 then Char.ofNat (48 + n) else Char.ofNat (87 + n)

/-- Four-digit hexadecimal rendering of a code point below 0x10000. -/
def hex4 (n : Nat) : String :=
  String.mk [hexDigitChar (n / 4096 % 16), hexDigitChar (n / 256 % 16),
    hexDigitChar (n / 16 % 16), hexDigitChar (n % 16)]

/-- Escaping of one character inside a JSON string literal, as
`JSON.stringify` performs it. -/
def escapeChar (c : Char) : String :=
  if c = '"' then "\\\""
  else if c = '\\' then "\\\\"
  else if c = '\n' then "\\n"
  else if c = '\t' then "\\t"
  else if c = '\r' then "\\r"
  else if c = Char.ofNat 8 then "\\b"
  else if c = Char.ofNat 12 then "\\f"
  else if c.toNat < 32 then "\\u" ++ hex4 c.toNat
  else String.singleton c

/-- A JSON string literal as `JSON.stringify` renders it. -/
def escapeString (s : String) : String :=
  "\"" ++ String.join (s.data.map escapeChar) ++ "\""

/-- Separator-interleaved concatenation, mirroring `Array.prototype.join`. -/
def joinSep (sep : String) : List String → String
  | [] => ""
  | [x] => x
  | x :: y :: rest => x ++ sep ++ joinSep sep (y :: rest)

mutual
/-- Model of `JSON.stringify(v, null, 2)` at nesting level `lvl`:
2-space-per-level pretty printing exactly as V8 renders it. -/
def stringifyV : Nat → JValue → String
  | _, .null => "null"
  | _, .bool b => if b then "true" else "false"
  | _, .num n => toString n
  | _, .str s => escapeString s
  | _, .arr .nil => "[]"
  | lvl, .arr (.cons x xs) =>
    "[\n" ++ joinSep ",\n" (stringifyItems (lvl + 1) (.cons x xs)) ++
      "\n" ++ indentStr (2 * lvl) ++ "]"
  | _, .obj .nil => String.mk [lbrace, rbrace]
  | lvl, .obj (.cons k v fs) =>
    String.singleton lbrace ++ "\n" ++
      joinSep ",\n" (stringifyMembers (lvl + 1) (.cons k v fs)) ++
      "\n" ++ indentStr (2 * lvl) ++ String.singleton rbrace

/-- One rendered line per array element, indented to level `lvl`. -/
def stringifyItems : Nat → JList → List String
  | _, .nil => []
  | lvl, .cons v tl =>
    (indentStr (2 * lvl) ++ stringifyV lvl v) :: stringifyItems lvl tl

/-- One rendered line per object member, indented to level `lvl`. -/
def stringifyMembers : Nat → JFields → List String
  | _, .nil => []
  | lvl, .cons k v tl =>
    (indentStr (2 * lvl) ++ escapeString k ++ ": " ++ stringifyV lvl v) ::
      stringifyMembers lvl tl
end

/-- Model of `JSON.stringify(v, null, 2)` on a whole document. -/
def stringifyPretty (v : JValue) : String := stringifyV 0 v

mutual
/-- Model of JavaScript `String(v)` / template-literal coercion on JSON
data: arrays join their elements with `,` (with `null` elements rendered
empty, as `Array.prototype.join` does), plain objects render as
`[object Object]`. -/
def jsStringV : JValue → String
  | .null => "null"
  | .bool b => if b then "true" else "false"
  | .num n => toString n
  | .str s => s
  | .arr xs => joinSep "," (jsStringItems xs)
  | .obj _ => "[object Object]"

/-- Rendered array elements for `Array.prototype.join`. -/
def jsStringItems : JList → List String
  | .nil => []
  | .cons .null tl => "" :: jsStringItems tl
  | .cons v tl => jsStringV v :: jsStringItems tl
end

/-- Model of JavaScript `String(v)` / template-literal coercion. -/
def jsString (v : JValue) : String := jsStringV v

/-- JSON whitespace characters accepted between tokens by `JSON.parse`. -/
def isJsonWs (c : Char) : Bool :=
  c = ' ' || c = '\t' || c = '\n' || c = '\r'

/-- Skip leading JSON whitespace. -/
def skipWs : List Char → List Char
  | [] => []
  | c :: cs => if isJsonWs c then skipWs cs else c :: cs

/-- Value of a hexadecimal digit character, if it is one. -/
def hexVal (c : Char) : Option Nat :=
  if '0' ≤ c ∧ c ≤ '9' then some (c.toNat - 48)
  else if 'a' ≤ c ∧ c ≤ 'f' then some (c.toNat - 87)
  else if 'A' ≤ c ∧ c ≤ 'F' then some (c.toNat - 55)
  else none

/-- Body of a JSON string literal after the opening quote: the decoded
characters and the input remaining after the closing quote.  Escape
sequences follow the JSON grammar; a `\uXXXX` escape is accepted when it
denotes a Unicode scalar value (lone surrogates are outside the model). -/
def parseStringBody : List Char → Option (List Char × List Char)
  | [] => none
  | '"' :: rest => some ([], rest)
  | '\\' :: 'u' :: a :: b :: c :: d :: rest => do
    let ha ← hexVal a
    let hb ← hexVal b
    let hc ← hexVal c
    let hd ← hexVal d
    let n := ((ha * 16 + hb) * 16 + hc) * 16 + hd
    if n < 0xd800 ∨ 0xe000 ≤ n then do
      let (cs, r) ← parseStringBody rest
      some (Char.ofNat n :: cs, r)
    else none
  | '\\' :: e :: rest => do
    let ch ←
      if e = '"' then some '"'
      else if e = '\\' then some '\\'
      else if e = '/' then some '/'
      else if e = 'b' then some (Char.ofNat 8)
      else if e = 'f' then some (Char.ofNat 12)
      else if e = 'n' then some '\n'
      else if e = 'r' then some '\r'
      else if e = 't' then some '\t'
      else none
    let (cs, r) ← parseStringBody rest
    some (ch :: cs, r)
  | '\\' :: [] => none
  | c :: rest =>
    if c.toNat < 32 then none
    else do
      let (cs, r) ← parseStringBody rest
      some (c :: cs, r)

/-- Longest leading run of decimal digits. -/
def takeDigits : List Char → List Char × List Char
  | [] => ([], [])
  | c :: cs =>
    if c.isDigit then
      let (ds, r) := takeDigits cs
      (c :: ds, r)
    else ([], c :: cs)

/-- Natural number denoted by a digit run. -/
def digitsToNat (ds : List Char) : Nat :=
  ds.foldl (fun a c => a * 10 + (c.toNat - 48)) 0

/-- Integer number token of the JSON grammar starting at `cs` (sign
already consumed).  Rejects leading zeros as `JSON.parse` does; rejects
fraction and exponent forms, which are outside the integer model. -/
def parseIntToken (neg : Bool) (cs : List Char) : Option (JValue × List Char) :=
  match takeDigits cs with
  | ([], _) => none
  | (d :: ds, r) =>
    if d = '0' ∧ ds ≠ [] then none
    else
      match r with
      | c :: _ =>
        if c = '.' ∨ c = 'e' ∨ c = 'E' then none
        else
          some (.num (if neg then -(digitsToNat (d :: ds) : Int) else (digitsToNat (d :: ds) : Int)), r)
      | [] =>
        some (.num (if neg then -(digitsToNat (d :: ds) : Int) else (digitsToNat (d :: ds) : Int)), r)

/-- What a recursive parser step is asked to produce: a single value,
the remainder of an array after its first element, or the remainder of
an object after its first member. -/
inductive PMode where
  | value
  | arrRest
  | objRest

/-- Result of a recursive parser step. -/
inductive POut where
  | val (v : JValue)
  | items (vs : List JValue)
  | members (ps : List (String × JValue))

/-- One object member (`"key" : value`), parsed by the caller's fuel. -/
def parseP : Nat → PMode → List Char → Option (POut × List Char)
  | 0, _, _ => none
  | fuel + 1, .value, cs0 =>
    match skipWs cs0 with
    | 'n' :: 'u' :: 'l' :: 'l' :: r => some (.val .null, r)
    | 't' :: 'r' :: 'u' :: 'e' :: r => some (.val (.bool true), r)
    | 'f' :: 'a' :: 'l' :: 's' :: 'e' :: r => some (.val (.bool false), r)
    | '"' :: r =>
      (parseStringBody r).map (fun p => (.val (.str (String.mk p.1)), p.2))
    | '[' :: r =>
      (match skipWs r with
       | ']' :: r2 => some (.val (.arr .nil), r2)
       | cs1 => do
         let (o1, r1) ← parseP fuel .value cs1
         match o1 with
         | .val v => do
           let (o2, r2) ← parseP fuel .arrRest r1
           match o2 with
           | .items vs => some (.val (.arr (JList.ofList (v :: vs))), r2)
           | _ => none
         | _ => none)
    | '-' :: r => (parseIntToken true r).map (fun p => (.val p.1, p.2))
    | c :: r =>
      if c = lbrace then
        match skipWs r with
        | c2 :: r2 =>
          if c2 = rbrace then some (.val (.obj .nil), r2)
          else if c2 = '"' then do
            let (ks, rk) ← parseStringBody r2
            match skipWs rk with
            | ':' :: rv => do
              let (o1, r1) ← parseP fuel .value rv
              match o1 with
              | .val v => do
                let (o2, r2') ← parseP fuel .objRest r1
                match o2 with
                | .members ps =>
                  some (.val (.obj (JFields.ofPairs ((String.mk ks, v) :: ps))), r2')
                | _ => none
              | _ => none
            | _ => none
          else none
        | [] => none
      else if c.isDigit then
        (parseIntToken false (c :: r)).map (fun p => (.val p.1, p.2))
      else none
    | [] => none
  | fuel + 1, .arrRest, cs0 =>
    match skipWs cs0 with
    | ']' :: r => some (.items [], r)
    | ',' :: r => do
      let (o1, r1) ← parseP fuel .value r
      match o1 with
      | .val v => do
        let (o2, r2) ← parseP fuel .arrRest r1
        match o2 with
        | .items vs => some (.items (v :: vs), r2)
        | _ => none
      | _ => none
    | _ => none
  | fuel + 1, .objRest, cs0 =>
    match skipWs cs0 with
    | c :: r =>
      if c = rbrace then some (.members [], r)
      else if c = ',' then
        match skipWs r with
        | '"' :: r2 => do
          let (ks, rk) ← parseStringBody r2
          match skipWs rk with
          | ':' :: rv => do
            let (o1, r1) ← parseP fuel .value rv
            match o1 with
            | .val v => do
              let (o2, r2') ← parseP fuel .objRest r1
              match o2 with
              | .members ps => some (.members ((String.mk ks, v) :: ps), r2')
              | _ => none
            | _ => none
          | _ => none
        | _ => none
      else none
    | [] => none

/-- Model of `JSON.parse`: `some` of the parsed document when the text
is valid JSON (within the integer-number model), `none` when `JSON.parse`
would throw a `SyntaxError`. -/
def parse (s : String) : Option JValue :=
  match parseP (s.length + 1) .value s.data with
  | some (.val v, r) => if skipWs r = [] then some v else none
  | _ => none

/-- One segment of a node path: the TypeScript type is
`(string | number)[]`, with numbers used for array indices. -/
inductive Seg where
  | str (s : String)
  | num (n : Int)
deriving DecidableEq

/-- Property key denoted by a path segment: JavaScript coerces a number
used in bracket indexing of a plain object to its decimal string. -/
def segKey : Seg → String
  | .str s => s
  | .num n => toString n

/-- All characters are decimal digits. -/
def allDigits : List Char → Bool
  | [] => true
  | c :: cs => c.isDigit && allDigits cs

/-- Decimal reading of a string: `some` of its value when the string is
a non-empty run of digits. -/
def strToNat? (s : String) : Option Nat :=
  match s.data with
  | [] => none
  | c :: cs => if allDigits (c :: cs) then some (digitsToNat (c :: cs)) else none

/-- Canonical array-index reading of a string key: `some n` exactly when
the string is the canonical decimal numeral of `n` (so `"00"`, `"-1"`,
`" 1"` are not array indices, matching JavaScript). -/
def natOfCanonical (s : String) : Option Nat :=
  match strToNat? s with
  | some n => if toString n = s then some n else none
  | none => none

/-- In-range element index denoted by a path segment against a length,
for arrays and strings: a non-negative number below the length, or a
canonical numeral string below the length. -/
def segElemIdx (len : Nat) : Seg → Option Nat
  | .num n => if 0 ≤ n ∧ n.toNat < len then some n.toNat else none
  | .str s =>
    match natOfCanonical s with
    | some i => if i < len then some i else none
    | none => none

/-- Model of one JavaScript bracket read `v[seg]` on parsed JSON data
(for `v` not `null`; `walk` rejects `null` and `undefined` bases before
reading).  `none` is JavaScript `undefined`.  Objects look keys up in
their fields; arrays and strings expose in-range elements and their
`length`; number and boolean primitives have no own properties. -/
def jsIndex : JValue → Seg → Option JValue
  | .obj fs, seg => fs.lookup (segKey seg)
  | .arr xs, seg =>
    match segElemIdx xs.length seg with
    | some i => xs.get? i
    | none => if seg = Seg.str "length" then some (.num xs.length) else none
  | .str s, seg =>
    match segElemIdx s.length seg with
    | some i => (s.data.get? i).map (fun c => JValue.str (String.singleton c))
    | none => if seg = Seg.str "length" then some (.num s.length) else none
  | .num _, _ => none
  | .bool _, _ => none
  | .null, _ => none

/-- The `for` loop of `updateJsonAtPath`: successive bracket indexing
`current = current[path[i]]` starting from the parsed root.  Reading a
property of `undefined` or of `null` throws a `TypeError`, modelled as
`Except.error ()`; every other read yields a value or `undefined`. -/
def walk : Option JValue → List Seg → Except Unit (Option JValue)
  | cur, [] => .ok cur
  | none, _ :: _ => .error ()
  | some .null, _ :: _ => .error ()
  | some (.bool b), seg :: rest => walk (jsIndex (.bool b) seg) rest
  | some (.num n), seg :: rest => walk (jsIndex (.num n) seg) rest
  | some (.str s), seg :: rest => walk (jsIndex (.str s) seg) rest
  | some (.arr xs), seg :: rest => walk (jsIndex (.arr xs) seg) rest
  | some (.obj fs), seg :: rest => walk (jsIndex (.obj fs) seg) rest

/-- Containers in the sense of the update guard
`typeof current === "object" && current !== null`: plain objects and
arrays (both have `typeof` `"object"` in JavaScript). -/
def JValue.isContainer : JValue → Bool
  | .obj _ => true
  | .arr _ => true
  | _ => false

/-- Replacement of the subterm addressed by a path: the functional
counterpart of mutating, in place, the container the walk reached.  At
each step it descends into the same stored child `jsIndex` reads; when a
step does not land on a stored child of an object or array (so the walk
went through a primitive, `length`, or a missing property and can only
have produced primitives or `undefined`), the document is left as is. -/
def setConstAt : JValue → List Seg → JValue → JValue
  | _, [], t => t
  | .obj fs, seg :: rest, t =>
    match fs.lookup (segKey seg) with
    | some child => .obj (fs.set (segKey seg) (setConstAt child rest t))
    | none => .obj fs
  | .arr xs, seg :: rest, t =>
    match segElemIdx xs.length seg with
    | some i =>
      match xs.get? i with
      | some child => .arr (xs.set i (setConstAt child rest t))
      | none => .arr xs
    | none => .arr xs
  | v, _ :: _, _ => v

/-- First `n` elements of an array element list (array truncation). -/
def JList.take : JList → Nat → JList
  | _, 0 => .nil
  | .nil, _ + 1 => .nil
  | .cons hd tl, n + 1 => .cons hd (tl.take n)

/-- Model of one JavaScript assignment `t[key] = v` on a container taken
from parsed JSON data.  On a plain object it writes the field.  On an
array, a canonical in-range index writes the element, a canonical index
past the end extends the array with holes (serialized as `null`),
`length` assignment resizes when the value reads as a decimal natural
(and throws a `RangeError` otherwise — only string values reach this
point from the component), and any other key becomes a non-index
property that `JSON.stringify` never prints, modelled as no change.
Primitive targets never reach this function: the update guard
`typeof current === "object" && current !== null` excludes them. -/
def setProp : JValue → String → JValue → Except Unit JValue
  | .obj fs, k, v => .ok (.obj (fs.set k v))
  | .arr xs, k, v =>
    if k = "length" then
      match v with
      | .str s =>
        match strToNat? s with
        | some n =>
          .ok (.arr (if n ≤ xs.length then xs.take n
                     else xs.append (JList.nulls (n - xs.length))))
        | none => .error ()
      | _ => .error ()
    else
      match natOfCanonical k with
      | some i =>
        if i < xs.length then .ok (.arr (xs.set i v))
        else .ok (.arr ((xs.append (JList.nulls (i - xs.length))).append
          (.cons v .nil)))
      | none => .ok (.arr xs)
  | t, _, _ => .ok t

/-- The `Object.entries(newValues).forEach` loop of `updateJsonAtPath`:
each entry is assigned onto the target container in iteration order; a
thrown assignment aborts the loop (and is caught by the surrounding
handler). -/
def applyEntries : JValue → List (String × String) → Except Unit JValue
  | t, [] => .ok t
  | t, (k, v) :: rest =>
    match setProp t k (.str v) with
    | .error e => .error e
    | .ok t2 => applyEntries t2 rest

/-- Body of the `try` block of `updateJsonAtPath` after a successful
parse: walk to the target, assign the new values when the target passes
`typeof current === "object" && current !== null`, and re-serialize the
whole (possibly updated) document with 2-space indentation. -/
def performUpdate (root : JValue) (path : List Seg) (nv : List (String × String)) :
    Except Unit String :=
  match walk (some root) path with
  | .error e => .error e
  | .ok none => .ok (stringifyPretty root)
  | .ok (some t) =>
    if t.isContainer then
      match applyEntries t nv with
      | .error e => .error e
      | .ok t2 => .ok (stringifyPretty (setConstAt root path t2))
    else .ok (stringifyPretty root)

/-- Model of `updateJsonAtPath(json, path, newValues)`: parse the
document (a `SyntaxError` is caught, returning the input unchanged), run
the walk-and-assign body (any thrown `TypeError`/`RangeError` is caught
by the same handler, returning the input unchanged), otherwise return
the re-serialized document. -/
def updateJsonAtPath (json : String) (path : List Seg)
    (nv : List (String × String)) : String :=
  match parse json with
  | none => json
  | some root =>
    match performUpdate root path nv with
    | .error _ => json
    | .ok out => out

/-- Modelled from the spec: the row type of `NodeData["text"]` lives in
`src/types/graph`, which is not part of the sources; §3 of the spec
describes a row as `key` (optional string), `value` (scalar), and `type`
(tag distinguishing `"array"`, `"object"`, or scalar kinds).  The value
is carried as a `JValue` so that both its JSON serialization and its
JavaScript string coercion are available. -/
structure Row where
  key : Option String
  value : JValue
  type : String
deriving DecidableEq

/-- Modelled from the spec: `NodeData` (§3) carries `text` (ordered row
sequence) and `path` (ordered string-or-integer segments); the component
reads these two attributes and replaces `text` wholesale on save. -/
structure NodeData where
  text : List Row
  path : Option (List Seg)
deriving DecidableEq

/-- JavaScript truthiness of an optional string key: `undefined` and the
empty string are falsy, so `!row.key` holds exactly when the key is
absent or empty. -/
def keyTruthy : Option String → Bool
  | none => false
  | some s => s != ""

/-- The row filter of `normalizeNodeData`'s `forEach` body: rows whose
`type` is neither `"array"` nor `"object"` and whose key is truthy are
assigned onto the accumulating object. -/
def buildFields (rows : List Row) : JFields :=
  rows.foldl
    (fun acc r =>
      if r.type != "array" && r.type != "object" then
        match r.key with
        | some k => if k == "" then acc else acc.set k r.value
        | none => acc
      else acc)
    .nil

/-- Model of `normalizeNodeData(nodeRows)`: empty or `undefined` rows
give the literal text of an empty object; a single row with a falsy key
gives its value coerced by a template literal; otherwise the scalar
keyed rows are collected into an object and pretty-printed. -/
def normalizeNodeData (nodeRows : Option (List Row)) : String :=
  match nodeRows with
  | none => String.mk [lbrace, rbrace]
  | some [] => String.mk [lbrace, rbrace]
  | some (r :: rs) =>
    if rs.isEmpty && !keyTruthy r.key then jsString r.value
    else stringifyPretty (.obj (buildFields (r :: rs)))

/-- Rendering of one path segment in `jsonPathToString`: a number stays
bare (`typeof seg === "number"`), anything else is wrapped in double
quotes with no escaping. -/
def segRender : Seg → String
  | .num n => toString n
  | .str s => "\"" ++ s ++ "\""

/-- Model of `jsonPathToString(path)`: `$` for an absent or empty path,
otherwise `$[` + the rendered segments joined by `][` + `]`. -/
def jsonPathToString (path : Option (List Seg)) : String :=
  match path with
  | none => "$"
  | some [] => "$"
  | some segs => "$[" ++ joinSep "][" (segs.map segRender) ++ "]"

/-- The row mapper inside `handleSave`: a row whose `type` is neither
`"array"` nor `"object"`, whose key is truthy, and whose key has an
entry in the edited values (`editedValues[row.key] !== undefined`) gets
its value replaced by the edited string; every other row passes through
unchanged. -/
def saveRow (ev : List (String × String)) (row : Row) : Row :=
  if row.type != "array" && row.type != "object" then
    match row.key with
    | some k =>
      if k == "" then row
      else
        match lookupRec ev k with
        | some v => { row with value := .str v }
        | none => row
    | none => row
  else row

/-- The updated row sequence `handleSave` computes
(`nodeData.text.map(row => ...)`). -/
def updatedTextOf (rows : List Row) (ev : List (String × String)) : List Row :=
  rows.map (saveRow ev)

/-- The updated node `handleSave` passes to `setSelectedNode`:
`{ ...nodeData, text: updatedText }`. -/
def handleSaveNode (nd : NodeData) (ev : List (String × String)) : NodeData :=
  { nd with text := updatedTextOf nd.text ev }

/-- Modelled from the spec: the two external stores (§6) are reachable
only through `getContents`/`setContents`/`getFormat` on the file store
and `selectedNode`/`setSelectedNode` on the graph store; together with
the component's own `isEditing`/`editedValues` state they form the
state the handlers act on. -/
structure AppState where
  fileContents : String
  fileFormat : String
  selectedNode : Option NodeData
  isEditing : Bool
  editedValues : List (String × String)

/-- Model of `handleEditChange(key, value)`:
`setEditedValues(prev => ({ ...prev, [key]: value }))`. -/
def handleEditChange (k v : String) (s : AppState) : AppState :=
  { s with editedValues := setRec s.editedValues k v }

/-- Model of `handleCancel`: leave edit mode and discard the in-progress
edited values; no store access occurs. -/
def handleCancel (s : AppState) : AppState :=
  { s with isEditing := false, editedValues := [] }

/-- The `editableRows` filter of the component: rows whose `type` is
neither `"array"` nor `"object"`, with no condition on the key. -/
def editableRows (rows : List Row) : List Row :=
  rows.filter (fun r => r.type != "array" && r.type != "object")

/-- Enablement of the Edit action: the button carries
`disabled={editableRows.length === 0}`. -/
def editEnabled (rows : List Row) : Bool :=
  !(editableRows rows).isEmpty

/-- Coercion used when edit mode initializes a field:
`String(row.value ?? "")` — `null` collapses to the empty string before
coercion. -/
def initCoerce : JValue → String
  | .null => ""
  | v => jsString v

/-- Model of the edit-mode initialization effect: rows whose `type` is
neither `"array"` nor `"object"` and whose key is truthy contribute
`initialValues[row.key] = String(row.value ?? "")`. -/
def initialValues (rows : List Row) : List (String × String) :=
  rows.foldl
    (fun acc r =>
      if r.type != "array" && r.type != "object" then
        match r.key with
        | some k => if k == "" then acc else setRec acc k (initCoerce r.value)
        | none => acc
      else acc)
    []

/-- Reference field collection from C5's words, literal reading: rows
whose type is neither `"array"` nor `"object"` and whose (optional) key
is present contribute their key and value, in iteration order. -/
def specFieldsPresent (rows : List Row) : JFields :=
  rows.foldl
    (fun acc r =>
      if (r.type != "array" && r.type != "object") && r.key.isSome then
        acc.set (r.key.getD "") r.value
      else acc)
    .nil

/-- Reference definition from C5's words, literal reading: empty or
undefined rows give the literal text of an empty object; exactly one row
that has no key (key absent) gives its value coerced to text; otherwise
the mapping built from scalar rows with a present key, pretty-printed. -/
def normalizeNodeDataSpec (nodeRows : Option (List Row)) : String :=
  match nodeRows with
  | none => String.mk [lbrace, rbrace]
  | some [] => String.mk [lbrace, rbrace]
  | some [r] =>
    if r.key = none then jsString r.value
    else stringifyPretty (.obj (specFieldsPresent [r]))
  | some rows => stringifyPretty (.obj (specFieldsPresent rows))

/-- Reference field collection for the amended C5: a key counts as
usable when it is present and non-empty (JavaScript truthiness). -/
def specFieldsTruthy (rows : List Row) : JFields :=
  rows.foldl
    (fun acc r =>
      if (r.type != "array" && r.type != "object") && keyTruthy r.key then
        acc.set (r.key.getD "") r.value
      else acc)
    .nil

/-- Reference definition for the amended C5: as `normalizeNodeDataSpec`,
but a row counts as keyless when its key is absent or empty, matching
the component's truthiness tests. -/
def normalizeNodeDataAmended (nodeRows : Option (List Row)) : String :=
  match nodeRows with
  | none => String.mk [lbrace, rbrace]
  | some [] => String.mk [lbrace, rbrace]
  | some [r] =>
    if keyTruthy r.key then stringifyPretty (.obj (specFieldsTruthy [r]))
    else jsString r.value
  | some rows => stringifyPretty (.obj (specFieldsTruthy rows))

/-- Each rendered segment wrapped in square brackets, concatenated. -/
def bracketAll : List String → String
  | [] => ""
  | x :: xs => "[" ++ x ++ "]" ++ bracketAll xs

/-- Reference definition from C6's words: `$` for an absent or empty
path, otherwise `$` followed by each segment in square brackets, integer
segments bare and string segments quoted without escaping. -/
def jsonPathToStringSpec (path : Option (List Seg)) : String :=
  match path with
  | none => "$"
  | some [] => "$"
  | some segs => "$" ++ bracketAll (segs.map segRender)

/-- Reference row update from C7's words, literal reading: a row whose
type is neither `"array"` nor `"object"`, whose key is present, and
whose key has an entry in the edited values gets its value replaced by
that entry; every other row passes through unchanged. -/
def saveRowSpec (ev : List (String × String)) (row : Row) : Row :=
  match row.key with
  | some k =>
    if row.type != "array" && row.type != "object" then
      match lookupRec ev k with
      | some v => { row with value := .str v }
      | none => row
    else row
  | none => row

/-- Reference row update for the amended C7: as `saveRowSpec`, but the
key must additionally be non-empty (JavaScript truthiness of
`row.key`). -/
def saveRowSpecTruthy (ev : List (String × String)) (row : Row) : Row :=
  match row.key with
  | some k =>
    if (row.type != "array" && row.type != "object") && k != "" then
      match lookupRec ev k with
      | some v => { row with value := .str v }
      | none => row
    else row
  | none => row

/-- Fields after assigning every new-value entry in iteration order onto
an object's fields, as the update loop of `updateJsonAtPath` does. -/
def setStrFields (fs : JFields) (nv : List (String × String)) : JFields :=
  nv.foldl (fun acc kv => acc.set kv.1 (.str kv.2)) fs

theorem JFields.lookup_set_self : ∀ (fs : JFields) (k : String) (v : JValue),
    (fs.set k v).lookup k = some v
  | .nil, k, v => by simp [JFields.set, JFields.lookup]
  | .cons k0 v0 rest, k, v => by
    by_cases h : k0 = k
    · simp [JFields.set, JFields.lookup, h]
    · simp [JFields.set, JFields.lookup, h, JFields.lookup_set_self rest k v]

theorem JFields.lookup_set_ne : ∀ (fs : JFields) (k0 k : String) (v : JValue),
    k0 ≠ k → (fs.set k0 v).lookup k = fs.lookup k
  | .nil, k0, k, v, h => by simp [JFields.set, JFields.lookup, h]
  | .cons k1 v1 rest, k0, k, v, h => by
    by_cases h1 : k1 = k0
    · subst h1
      simp [JFields.set, JFields.lookup, h]
    · simp [JFields.set, JFields.lookup, h1, JFields.lookup_set_ne rest k0 k v h]

theorem JFields.set_lookup_self : ∀ (fs : JFields) (k : String) (v : JValue),
    fs.lookup k = some v → fs.set k v = fs
  | .nil, k, v, h => by simp [JFields.lookup] at h
  | .cons k0 v0 rest, k, v, h => by
    by_cases h0 : k0 = k
    · simp [JFields.lookup, h0] at h
      simp [JFields.set, h0, h]
    · simp [JFields.lookup, h0] at h
      simp [JFields.set, h0, JFields.set_lookup_self rest k v h]

theorem JList.set_get_self : ∀ (xs : JList) (i : Nat) (c : JValue),
    xs.get? i = some c → xs.set i c = xs
  | .nil, i, c, h => by simp [JList.get?] at h
  | .cons hd tl, 0, c, h => by
    simp [JList.get?] at h
    simp [JList.set, h]
  | .cons hd tl, n + 1, c, h => by
    simp [JList.get?] at h
    simp [JList.set, JList.set_get_self tl n c h]

theorem setConstAt_walk_self (path : List Seg) (root t : JValue)
    (h : walk (some root) path = .ok (some t)) : setConstAt root path t = root := by
  induction path generalizing root with
  | nil =>
    simp [walk] at h
    simp [setConstAt, h]
  | cons seg rest ih =>
    cases root with
    | null => rfl
    | bool b => rfl
    | num n => rfl
    | str s => rfl
    | obj fs =>
      rw [show walk (some (.obj fs)) (seg :: rest) = walk (jsIndex (.obj fs) seg) rest from rfl] at h
      cases h1 : fs.lookup (segKey seg) with
      | none => simp [setConstAt, h1]
      | some child =>
        simp only [jsIndex, h1] at h
        simp [setConstAt, h1, ih child h, JFields.set_lookup_self fs (segKey seg) child h1]
    | arr xs =>
      rw [show walk (some (.arr xs)) (seg :: rest) = walk (jsIndex (.arr xs) seg) rest from rfl] at h
      cases h1 : segElemIdx xs.length seg with
      | none => simp [setConstAt, h1]
      | some i =>
        cases h2 : xs.get? i with
        | none => simp [setConstAt, h1, h2]
        | some child =>
          simp only [jsIndex, h1, h2] at h
          simp [setConstAt, h1, h2, ih child h, JList.set_get_self xs i child h2]

theorem applyEntries_obj (nv : List (String × String)) (fs : JFields) :
    applyEntries (.obj fs) nv = .ok (.obj (setStrFields fs nv)) := by
  induction nv generalizing fs with
  | nil => simp [applyEntries, setStrFields]
  | cons kv rest ih =>
    simp only [applyEntries, setProp, setStrFields, List.foldl_cons]
    exact ih (fs.set kv.1 (.str kv.2))

theorem lookup_setStrFields_notmem (nv : List (String × String)) (fs : JFields)
    (k : String) (h : k ∉ nv.map Prod.fst) :
    (setStrFields fs nv).lookup k = fs.lookup k := by
  induction nv generalizing fs with
  | nil => simp [setStrFields]
  | cons kv rest ih =>
    simp only [List.map_cons, List.mem_cons, not_or] at h
    rw [show setStrFields fs (kv :: rest) = setStrFields (fs.set kv.1 (.str kv.2)) rest from by
      simp [setStrFields]]
    rw [ih (fs.set kv.1 (.str kv.2)) h.2]
    exact JFields.lookup_set_ne fs kv.1 k (.str kv.2) (fun he => h.1 he.symm)

theorem lookup_setStrFields_mem (nv : List (String × String)) (fs : JFields)
    (hnd : (nv.map Prod.fst).Nodup) (kv : String × String) (hm : kv ∈ nv) :
    (setStrFields fs nv).lookup kv.1 = some (.str kv.2) := by
  induction nv generalizing fs with
  | nil => simp at hm
  | cons kv0 rest ih =>
    simp only [List.map_cons, List.nodup_cons] at hnd
    rw [show setStrFields fs (kv0 :: rest) = setStrFields (fs.set kv0.1 (.str kv0.2)) rest from by
      simp [setStrFields]]
    rcases List.mem_cons.mp hm with hhd | htl
    · subst hhd
      rw [lookup_setStrFields_notmem rest _ kv.1 hnd.1]
      exact JFields.lookup_set_self _ kv.1 (.str kv.2)
    · exact ih _ hnd.2 htl

/-- Container test lifted to a possibly-undefined walk result. -/
def isContainerO : Option JValue → Bool
  | some v => v.isContainer
  | none => false

/-- C1: for every document that parses as valid JSON and every path whose
successive indexing steps reach a non-null object container,
`updateJsonAtPath` sets each entry of the new values (keys distinct) on
the reached container as its string value — overwriting or inserting —
and returns the whole document re-serialized as pretty-printed JSON with
2-space indent (the document with the reached container replaced by its
updated fields). -/
theorem c1_updateJsonAtPath_sets_values (json : String) (root : JValue)
    (path : List Seg) (fs : JFields) (nv : List (String × String))
    (hparse : parse json = some root)
    (hwalk : walk (some root) path = .ok (some (.obj fs)))
    (hnodup : (nv.map Prod.fst).Nodup) :
    updateJsonAtPath json path nv
      = stringifyPretty (setConstAt root path (.obj (setStrFields fs nv))) ∧
    ∀ kv ∈ nv, (setStrFields fs nv).lookup kv.1 = some (.str kv.2) := by
  constructor
  · simp [updateJsonAtPath, hparse, performUpdate, hwalk, JValue.isContainer,
      applyEntries_obj]
  · intro kv hm
    exact lookup_setStrFields_mem nv fs hnodup kv hm

/-- Witness for C1 at the claim's example: updating `{"a":{"b":1}}` at
path `["a"]` with `{b: "2"}` yields the claimed pretty-printed text. -/
theorem c1_witness :
    parse "\x7b\"a\":\x7b\"b\":1\x7d\x7d"
      = some (JValue.obj (.cons "a" (.obj (.cons "b" (.num 1) .nil)) .nil)) ∧
    walk (some (JValue.obj (.cons "a" (.obj (.cons "b" (.num 1) .nil)) .nil))) [Seg.str "a"]
      = .ok (some (.obj (.cons "b" (.num 1) .nil))) ∧
    ([("b", "2")].map Prod.fst).Nodup ∧
    updateJsonAtPath "\x7b\"a\":\x7b\"b\":1\x7d\x7d" [Seg.str "a"] [("b", "2")]
      = "\x7b\n  \"a\": \x7b\n    \"b\": \"2\"\n  \x7d\n\x7d" := by
  refine ⟨rfl, rfl, by decide, ?_⟩
  have h := c1_updateJsonAtPath_sets_values "\x7b\"a\":\x7b\"b\":1\x7d\x7d"
    (JValue.obj (.cons "a" (.obj (.cons "b" (.num 1) .nil)) .nil))
    [Seg.str "a"] (.cons "b" (.num 1) .nil) [("b", "2")] rfl rfl (by decide)
  exact h.1.trans rfl

/-- C2: for every input that is not valid JSON, `updateJsonAtPath`
returns the original text unchanged for any path and new values — the
parse failure is caught and no exception surfaces. -/
theorem c2_invalid_json_returns_input (json : String) (path : List Seg)
    (nv : List (String × String)) (h : parse json = none) :
    updateJsonAtPath json path nv = json := by
  simp [updateJsonAtPath, h]

/-- Witness for C2 at the claim's example: `'not json'` is returned
unchanged. -/
theorem c2_witness :
    parse "not json" = none ∧ updateJsonAtPath "not json" [] [] = "not json" :=
  ⟨rfl, c2_invalid_json_returns_input "not json" [] [] rfl⟩

/-- Counterexample to C3 as stated: the claim lists an array among the
targets whose update mapping is "dropped entirely", but the guard
`typeof current === "object" && current !== null` admits arrays, so a
numeric-string key modifies the array element: updating `[1,2]` at the
empty path with `{"0": "x"}` changes the document instead of returning
it re-serialized unchanged. -/
theorem c3_counterexample :
    parse "[1,2]" = some (JValue.arr (.cons (.num 1) (.cons (.num 2) .nil))) ∧
    walk (some (JValue.arr (.cons (.num 1) (.cons (.num 2) .nil)))) []
      = .ok (some (JValue.arr (.cons (.num 1) (.cons (.num 2) .nil)))) ∧
    updateJsonAtPath "[1,2]" [] [("0", "x")] = "[\n  \"x\",\n  2\n]" ∧
    updateJsonAtPath "[1,2]" [] [("0", "x")]
      ≠ stringifyPretty (JValue.arr (.cons (.num 1) (.cons (.num 2) .nil))) :=
  ⟨rfl, rfl, rfl, by decide⟩

/-- C3 (amended): for every valid JSON document and every path whose walk
reaches a target that is neither an object nor an array — a number, a
string, a boolean, null, or no value at all — `updateJsonAtPath` drops
the new-values mapping entirely and returns the document unchanged in
content but re-serialized as pretty-printed JSON with 2-space indent. -/
theorem c3_noncontainer_target_drops_update (json : String) (root : JValue)
    (path : List Seg) (tgt : Option JValue) (nv : List (String × String))
    (hparse : parse json = some root)
    (hwalk : walk (some root) path = .ok tgt)
    (hnc : isContainerO tgt = false) :
    updateJsonAtPath json path nv = stringifyPretty root := by
  cases tgt with
  | none => simp [updateJsonAtPath, hparse, performUpdate, hwalk]
  | some t =>
    have ht : t.isContainer = false := by simpa [isContainerO] using hnc
    simp [updateJsonAtPath, hparse, performUpdate, hwalk, ht]

/-- Witness for the amended C3: a number target (`{"a":1}` at path
`["a"]`) drops the mapping and the document is only re-formatted. -/
theorem c3_witness :
    parse "\x7b\"a\":1\x7d" = some (JValue.obj (.cons "a" (.num 1) .nil)) ∧
    walk (some (JValue.obj (.cons "a" (.num 1) .nil))) [Seg.str "a"]
      = .ok (some (.num 1)) ∧
    isContainerO (some (.num 1)) = false ∧
    updateJsonAtPath "\x7b\"a\":1\x7d" [Seg.str "a"] [("x", "y")]
      = "\x7b\n  \"a\": 1\n\x7d" := by
  refine ⟨rfl, rfl, rfl, ?_⟩
  have h := c3_noncontainer_target_drops_update "\x7b\"a\":1\x7d"
    (JValue.obj (.cons "a" (.num 1) .nil)) [Seg.str "a"] (some (.num 1))
    [("x", "y")] rfl rfl rfl
  exact h.trans rfl

/-- Counterexample to C4 as stated: the claim asserts some walk failure
is unhandled — not caught, not resulting in the original text.  At the
canonical failing input (`{"a":1}`, path `["a","b","c"]`, which indexes
through a number into `undefined`) the walk does throw, but the `try`
block of `updateJsonAtPath` spans the walk, so the `catch` returns the
original text normally. -/
theorem c4_counterexample :
    parse "\x7b\"a\":1\x7d" = some (JValue.obj (.cons "a" (.num 1) .nil)) ∧
    walk (some (JValue.obj (.cons "a" (.num 1) .nil)))
      [Seg.str "a", Seg.str "b", Seg.str "c"] = .error () ∧
    updateJsonAtPath "\x7b\"a\":1\x7d" [Seg.str "a", Seg.str "b", Seg.str "c"]
      [("k", "v")] = "\x7b\"a\":1\x7d" :=
  ⟨rfl, rfl, rfl⟩

/-- C4 (amended): for every valid JSON document, every path and every
new-values mapping, a runtime failure raised during the walk is caught
by the surrounding handler and `updateJsonAtPath` returns the original
text unchanged — no failure surfaces to the caller. -/
theorem c4_walk_failure_is_caught (json : String) (root : JValue)
    (path : List Seg) (nv : List (String × String))
    (hparse : parse json = some root)
    (hwalk : walk (some root) path = .error ()) :
    updateJsonAtPath json path nv = json := by
  simp [updateJsonAtPath, hparse, performUpdate, hwalk]

/-- Witness for the amended C4 at a concrete failing walk. -/
theorem c4_witness :
    parse "\x7b\"a\":1\x7d" = some (JValue.obj (.cons "a" (.num 1) .nil)) ∧
    walk (some (JValue.obj (.cons "a" (.num 1) .nil)))
      [Seg.str "a", Seg.str "x", Seg.str "y"] = .error () ∧
    updateJsonAtPath "\x7b\"a\":1\x7d" [Seg.str "a", Seg.str "x", Seg.str "y"] []
      = "\x7b\"a\":1\x7d" :=
  ⟨rfl, rfl,
    c4_walk_failure_is_caught "\x7b\"a\":1\x7d" (JValue.obj (.cons "a" (.num 1) .nil))
      [Seg.str "a", Seg.str "x", Seg.str "y"] [] rfl rfl⟩

/-- C9: saving with an empty edited-values mapping round-trips the
document: for every valid JSON text and every path whose walk reaches a
non-null object, `updateJsonAtPath` with an empty mapping returns the
2-space pretty-printed serialization of the parsed document. -/
theorem c9_empty_update_roundtrips (json : String) (root : JValue)
    (path : List Seg) (fs : JFields)
    (hparse : parse json = some root)
    (hwalk : walk (some root) path = .ok (some (.obj fs))) :
    updateJsonAtPath json path [] = stringifyPretty root := by
  have hself : setConstAt root path (.obj fs) = root :=
    setConstAt_walk_self path root (.obj fs) hwalk
  simp [updateJsonAtPath, hparse, performUpdate, hwalk, JValue.isContainer,
    applyEntries, hself]

/-- Witness for C9: the empty save on `{"a":{"b":1}}` at path `["a"]`
re-pretty-prints the document with unchanged content. -/
theorem c9_witness :
    parse "\x7b\"a\":\x7b\"b\":1\x7d\x7d"
      = some (JValue.obj (.cons "a" (.obj (.cons "b" (.num 1) .nil)) .nil)) ∧
    walk (some (JValue.obj (.cons "a" (.obj (.cons "b" (.num 1) .nil)) .nil))) [Seg.str "a"]
      = .ok (some (.obj (.cons "b" (.num 1) .nil))) ∧
    updateJsonAtPath "\x7b\"a\":\x7b\"b\":1\x7d\x7d" [Seg.str "a"] []
      = "\x7b\n  \"a\": \x7b\n    \"b\": 1\n  \x7d\n\x7d" := by
  refine ⟨rfl, rfl, ?_⟩
  have h := c9_empty_update_roundtrips "\x7b\"a\":\x7b\"b\":1\x7d\x7d"
    (JValue.obj (.cons "a" (.obj (.cons "b" (.num 1) .nil)) .nil))
    [Seg.str "a"] (.cons "b" (.num 1) .nil) rfl rfl
  exact h.trans rfl

theorem buildFields_step_eq (acc : JFields) (r : Row) :
    (if r.type != "array" && r.type != "object" then
        match r.key with
        | some k => if k == "" then acc else acc.set k r.value
        | none => acc
      else acc)
      = (if (r.type != "array" && r.type != "object") && keyTruthy r.key then
          acc.set (r.key.getD "") r.value
        else acc) := by
  cases hk : r.key with
  | none => simp [keyTruthy]
  | some k =>
    by_cases hke : k = ""
    · subst hke
      simp [keyTruthy]
    · by_cases hs : (r.type != "array" && r.type != "object") = true
      · simp [keyTruthy, hs, hke]
      · simp [keyTruthy, hs, hke]

theorem buildFields_eq_specFieldsTruthy (rows : List Row) :
    buildFields rows = specFieldsTruthy rows := by
  unfold buildFields specFieldsTruthy
  exact List.foldl_ext _ _ _ (fun acc r _ => buildFields_step_eq acc r)

/-- Counterexample to C5 as stated: a single row whose key is the empty
string has a present key, so the claim's reference serializes the
mapping with the empty-string key, but the component treats the falsy
key as absent and passes the value through coerced. -/
theorem c5_counterexample :
    normalizeNodeData (some [⟨some "", JValue.num 5, "number"⟩]) = "5" ∧
    normalizeNodeDataSpec (some [⟨some "", JValue.num 5, "number"⟩])
      = "\x7b\n  \"\": 5\n\x7d" ∧
    normalizeNodeData (some [⟨some "", JValue.num 5, "number"⟩])
      ≠ normalizeNodeDataSpec (some [⟨some "", JValue.num 5, "number"⟩]) :=
  ⟨rfl, rfl, by decide⟩

/-- C5 (amended): `normalizeNodeData` equals the reference definition in
which a row counts as keyed only when its key is present and non-empty:
empty or undefined rows give the empty-object text; a single row with an
absent-or-empty key gives its value coerced to text; otherwise the
scalar rows with present non-empty keys are collected into a mapping and
pretty-printed with 2-space indent. -/
theorem c5_normalizeNodeData_matches_reference (nodeRows : Option (List Row)) :
    normalizeNodeData nodeRows = normalizeNodeDataAmended nodeRows := by
  match nodeRows with
  | none => rfl
  | some [] => rfl
  | some [r] =>
    cases hb : keyTruthy r.key <;>
      simp [normalizeNodeData, normalizeNodeDataAmended, hb,
        buildFields_eq_specFieldsTruthy]
  | some (r1 :: r2 :: rest) =>
    simp [normalizeNodeData, normalizeNodeDataAmended,
      buildFields_eq_specFieldsTruthy]

theorem bracket_joinSep : ∀ (xs : List String) (x : String),
    "[" ++ joinSep "][" (x :: xs) ++ "]" = bracketAll (x :: xs)
  | [], x => by
    simp [joinSep, bracketAll, String.append_empty]
  | y :: ys, x => by
    rw [show joinSep "][" (x :: y :: ys) = x ++ "][" ++ joinSep "][" (y :: ys) from rfl]
    rw [show bracketAll (x :: y :: ys)
        = "[" ++ x ++ "]" ++ bracketAll (y :: ys) from rfl]
    rw [← bracket_joinSep ys y]
    simp only [String.append_assoc]
    rw [show ("][" : String) = "]" ++ "[" from rfl]
    simp only [String.append_assoc]

/-- C6: `jsonPathToString` equals the reference definition — `$` for an
absent or empty path, otherwise `$` followed by each segment in square
brackets, integers bare and strings quoted with no escaping — and on
`["customer", 0, "id"]` it produces the claim's example text. -/
theorem c6_jsonPathToString_matches_reference :
    (∀ path : Option (List Seg), jsonPathToString path = jsonPathToStringSpec path) ∧
    jsonPathToString (some [Seg.str "customer", Seg.num 0, Seg.str "id"])
      = "$[\"customer\"][0][\"id\"]" := by
  constructor
  · intro path
    match path with
    | none => rfl
    | some [] => rfl
    | some (seg :: segs) =>
      rw [show jsonPathToString (some (seg :: segs))
          = "$[" ++ joinSep "][" ((seg :: segs).map segRender) ++ "]" from rfl]
      rw [show jsonPathToStringSpec (some (seg :: segs))
          = "$" ++ bracketAll ((seg :: segs).map segRender) from rfl]
      rw [List.map_cons, ← bracket_joinSep (segs.map segRender) (segRender seg)]
      rw [show ("$[" : String) = "$" ++ "[" from rfl]
      simp only [String.append_assoc]
  · rfl

theorem saveRow_eq_specTruthy (ev : List (String × String)) (r : Row) :
    saveRow ev r = saveRowSpecTruthy ev r := by
  unfold saveRow saveRowSpecTruthy
  cases hk : r.key with
  | none => cases r.type != "array" && r.type != "object" <;> simp
  | some k =>
    by_cases hke : k = ""
    · subst hke
      cases r.type != "array" && r.type != "object" <;> simp
    · by_cases hs : (r.type != "array" && r.type != "object") = true
      · simp [hs, hke]
      · simp [hs, hke]

/-- Counterexample to C7 as stated: a row whose key is the empty string
has a present key, so when the edited values carry an entry for `""` the
claim requires the value to be replaced, but `handleSave`'s truthiness
test `row.key && ...` skips the row and passes it through unchanged. -/
theorem c7_counterexample :
    updatedTextOf [⟨some "", JValue.num 1, "number"⟩] [("", "9")]
      = [⟨some "", JValue.num 1, "number"⟩] ∧
    [⟨some "", JValue.num 1, "number"⟩].map (saveRowSpec [("", "9")])
      = [⟨some "", JValue.str "9", "number"⟩] ∧
    updatedTextOf [⟨some "", JValue.num 1, "number"⟩] [("", "9")]
      ≠ [⟨some "", JValue.num 1, "number"⟩].map (saveRowSpec [("", "9")]) :=
  ⟨rfl, rfl, by decide⟩

/-- C7 (amended): on Save, the updated node differs from the previous
selected node only in its row sequence: every row whose type is neither
`"array"` nor `"object"`, whose key is present and non-empty, and whose
key has an entry in the edited values gets its value replaced by that
entry; every other row passes through unchanged; the path — the node's
only other modelled attribute — is unchanged. -/
theorem c7_save_replaces_only_row_values (nd : NodeData)
    (ev : List (String × String)) :
    (handleSaveNode nd ev).path = nd.path ∧
    (handleSaveNode nd ev).text = nd.text.map (saveRowSpecTruthy ev) := by
  refine ⟨rfl, ?_⟩
  show updatedTextOf nd.text ev = nd.text.map (saveRowSpecTruthy ev)
  unfold updatedTextOf
  exact List.map_congr_left (fun r _ => saveRow_eq_specTruthy ev r)

/-- An edit session: a sequence of `handleEditChange` reactions applied
to the component state. -/
def applyEdits (edits : List (String × String)) (s : AppState) : AppState :=
  edits.foldl (fun t kv => handleEditChange kv.1 kv.2 t) s

theorem applyEdits_preserves_stores : ∀ (edits : List (String × String)) (s : AppState),
    (applyEdits edits s).fileContents = s.fileContents ∧
    (applyEdits edits s).fileFormat = s.fileFormat ∧
    (applyEdits edits s).selectedNode = s.selectedNode
  | [], _ => ⟨rfl, rfl, rfl⟩
  | kv :: rest, s => applyEdits_preserves_stores rest (handleEditChange kv.1 kv.2 s)

/-- C8: Cancel transitions the component from Editing to Viewing and
discards the in-progress edited values, and — whatever sequence of edits
the session applied — it writes to neither external store: the file
store's contents (and format) and the graph store's selected node are
exactly what they were before the session. -/
theorem c8_cancel_touches_no_store (s : AppState) (edits : List (String × String)) :
    (handleCancel (applyEdits edits s)).fileContents = s.fileContents ∧
    (handleCancel (applyEdits edits s)).fileFormat = s.fileFormat ∧
    (handleCancel (applyEdits edits s)).selectedNode = s.selectedNode ∧
    (handleCancel (applyEdits edits s)).isEditing = false ∧
    (handleCancel (applyEdits edits s)).editedValues = [] := by
  obtain ⟨h1, h2, h3⟩ := applyEdits_preserves_stores edits s
  exact ⟨h1, h2, h3, rfl, rfl⟩

theorem initialValues_foldl_nil : ∀ (l : List Row) (acc : List (String × String)),
    (∀ r ∈ l, (r.type != "array" && r.type != "object") = true →
      keyTruthy r.key = false) →
    l.foldl
      (fun acc r =>
        if r.type != "array" && r.type != "object" then
          match r.key with
          | some k => if k == "" then acc else setRec acc k (initCoerce r.value)
          | none => acc
        else acc)
      acc = acc
  | [], _, _ => rfl
  | r :: rest, acc, h => by
    have hstep :
        (if r.type != "array" && r.type != "object" then
          match r.key with
          | some k => if k == "" then acc else setRec acc k (initCoerce r.value)
          | none => acc
        else acc) = acc := by
      by_cases hs : (r.type != "array" && r.type != "object") = true
      · have hk := h r (by simp) hs
        cases hkey : r.key with
        | none => simp [hs]
        | some k =>
          rw [hkey] at hk
          have hke : k = "" := by simpa [keyTruthy] using hk
          simp [hs, hke]
      · simp [hs]
    rw [List.foldl_cons, hstep]
    exact initialValues_foldl_nil rest acc (fun r' hm hs => h r' (by simp [hm]) hs)

/-- C10: the Edit guard counts every row whose type is neither `"array"`
nor `"object"` as editable without requiring a key, so for a node whose
scalar rows all lack (truthy) keys — and which is not the
single-keyless-row rendering case — the Edit action is enabled, yet
entering edit mode initializes an empty edited-values mapping, because
initialization skips rows without a truthy key. -/
theorem c10_edit_enabled_but_init_empty (rows : List Row)
    (hNoKey : ∀ r ∈ rows, (r.type != "array" && r.type != "object") = true →
      keyTruthy r.key = false)
    (hScalar : ∃ r ∈ rows, (r.type != "array" && r.type != "object") = true)
    (hNotSingle : rows.length ≠ 1) :
    editEnabled rows = true ∧ initialValues rows = [] := by
  constructor
  · obtain ⟨r, hm, hs⟩ := hScalar
    have hmem : r ∈ editableRows rows := List.mem_filter.mpr ⟨hm, hs⟩
    rcases hrows : editableRows rows with _ | ⟨a, l⟩
    · rw [hrows] at hmem
      simp at hmem
    · simp [editEnabled, hrows]
  · exact initialValues_foldl_nil rows [] hNoKey

/-- Witness for C10 at a two-row node of keyless scalars. -/
theorem c10_witness :
    (∀ r ∈ [(⟨none, JValue.num 5, "number"⟩ : Row), ⟨none, JValue.bool true, "boolean"⟩],
      (r.type != "array" && r.type != "object") = true → keyTruthy r.key = false) ∧
    (∃ r ∈ [(⟨none, JValue.num 5, "number"⟩ : Row), ⟨none, JValue.bool true, "boolean"⟩],
      (r.type != "array" && r.type != "object") = true) ∧
    ([(⟨none, JValue.num 5, "number"⟩ : Row), ⟨none, JValue.bool true, "boolean"⟩].length ≠ 1) ∧
    editEnabled [(⟨none, JValue.num 5, "number"⟩ : Row), ⟨none, JValue.bool true, "boolean"⟩] = true ∧
    initialValues [(⟨none, JValue.num 5, "number"⟩ : Row), ⟨none, JValue.bool true, "boolean"⟩] = [] := by
  refine ⟨by decide, by decide, by decide, ?_⟩
  exact c10_edit_enabled_but_init_empty _ (by decide) (by decide) (by decide)
